import Mathlib

set_option autoImplicit false

/-!
Shallow embedding of `src/kostats_scraper.py` (KOStats incremental downloader).

External effects (HTTP via `requests.Session`, the wall clock, the JSON
codec) are modelled as an explicit environment; the mutable object state
(`self.download_history`, the files written, the requests issued) is threaded
as an explicit `ScraperState`.  The politeness delay `time.sleep(1)` is real
time and has no observable effect in the model.
-/

namespace KOStats

/-- Models the inner loop of `os.path.basename`: the suffix of the character
list after the last `'/'` (the whole list when no slash occurs). -/
def basenameAux (acc : List Char) : List Char → List Char
  | [] => acc
  | c :: rest => if c = '/' then basenameAux [] rest else basenameAux (acc ++ [c]) rest

/-- Models `os.path.basename` as used on resolved URLs: the part of the
string after the last slash. -/
def basename (s : String) : String := String.mk (basenameAux [] s.data)

/-- Boolean prefix test on character lists. -/
def isPrefixL : List Char → List Char → Bool
  | [], _ => true
  | _ :: _, [] => false
  | a :: as, b :: bs => if a = b then isPrefixL as bs else false

/-- Splits a character list at the first occurrence of `pat`, returning the
part before and the part after, or `none` when `pat` does not occur. -/
def breakOn (pat : List Char) : List Char → Option (List Char × List Char)
  | [] => if isPrefixL pat [] then some ([], []) else none
  | c :: rest =>
    if isPrefixL pat (c :: rest) then some ([], (c :: rest).drop pat.length)
    else (breakOn pat rest).map (fun pr => (c :: pr.1, pr.2))

/-- Splits a URL into scheme and the remainder after `"://"`, when the URL
has an absolute form such as `http://host/path`. -/
def schemeSplit (u : List Char) : Option (List Char × List Char) :=
  match breakOn "://".data u with
  | some (s, rest) =>
    if s ≠ [] ∧ s.all (fun c => c ≠ '/') then some (s, rest) else none
  | none => none

/-- The prefix of `path` up to and including its last slash. -/
def upToLastSlash (path : List Char) : List Char :=
  (path.reverse.dropWhile (fun c => c ≠ '/')).reverse

/-- Models `urllib.parse.urljoin base url` on character lists, for the
reference forms produced by the listed pages: absolute references (their own
scheme), protocol-relative (`//host/..`), root-relative (`/..`) and plain
relative references without dot segments. -/
def urljoinL (base url : List Char) : List Char :=
  if url = [] then base
  else if (schemeSplit url).isSome then url
  else
    match schemeSplit base with
    | none => url
    | some (scheme, hostpath) =>
      if isPrefixL "//".data url then scheme ++ ':' :: url
      else
        let host := hostpath.takeWhile (fun c => c ≠ '/')
        let path := hostpath.dropWhile (fun c => c ≠ '/')
        let pre := scheme ++ "://".data ++ host
        if isPrefixL "/".data url then pre ++ url
        else if path.contains '/' then pre ++ upToLastSlash path ++ url
        else pre ++ '/' :: url

/-- Models `urllib.parse.urljoin` on strings. -/
def urljoin (base url : String) : String := String.mk (urljoinL base.data url.data)

/-- Models the filter `re.compile(r'\.TXT$', re.IGNORECASE)` applied to an
href attribute: the string ends with a dot followed by `TXT` in any case. -/
def txtHref (href : String) : Bool :=
  match href.data.reverse with
  | t1 :: x :: t2 :: d :: _ =>
    (t1 == 'T' || t1 == 't') && (x == 'X' || x == 'x') &&
      (t2 == 'T' || t2 == 't') && (d == '.')
  | _ => false

/-- A persisted download record: `{downloaded_at: ..., url: ...}` as built in
`download_file`. -/
structure DownloadRecord where
  downloaded_at : String
  url : String
deriving DecidableEq, Repr

/-- One sport's slice of the download history: the Python dict
`download_history[sport_code]`, as an insertion-ordered association list with
unique keys maintained by `shInsert`. -/
abbrev SportHistory := List (String × DownloadRecord)

/-- The full download history: the Python dict `self.download_history`. -/
abbrev History := List (String × SportHistory)

/-- Association-list lookup on string keys (first match), modelling Python
dict indexing and the `in` membership test. -/
def alookup {α : Type} : List (String × α) → String → Option α
  | [], _ => none
  | p :: rest, k => if p.1 = k then some p.2 else alookup rest k

/-- Dict assignment `d[name] = record` on a sport's slice: overwrite in place
when the key exists, append otherwise (Python dicts preserve insertion
order). -/
def shInsert : SportHistory → String → DownloadRecord → SportHistory
  | [], n, r => [(n, r)]
  | (k, v) :: rest, n, r =>
    if k = n then (k, r) :: rest else (k, v) :: shInsert rest n r

/-- The history update performed by `download_file` on success:
`download_history.setdefault(sport, dict-like)[name] = record`, written out as
the two statements of the source. -/
def histInsert : History → String → String → DownloadRecord → History
  | [], s, n, r => [(s, [(n, r)])]
  | (k, sh) :: rest, s, n, r =>
    if k = s then (k, shInsert sh n r) :: rest else (k, sh) :: histInsert rest s n r

/-- Models the membership test
`sport_code in download_history and file_name in download_history[sport_code]`. -/
def historyContains (h : History) (s n : String) : Bool :=
  match alookup h s with
  | some sh => (alookup sh n).isSome
  | none => false

/-- The names recorded in the history for a category, in insertion order. -/
def recordedNames (h : History) (s : String) : List String :=
  ((alookup h s).getD []).map Prod.fst

/-- Default of `os.getenv("DOWNLOAD_DIR", "downloads")`. -/
def BASE_DOWNLOAD_DIR : String := "downloads"

/-- `os.path.join(BASE_DOWNLOAD_DIR, "download_history.json")`. -/
def HISTORY_FILE : String := BASE_DOWNLOAD_DIR ++ "/download_history.json"

/-- The `SPORT_PAGES` dict, in its source order. -/
def SPORT_PAGES : List (String × String) :=
  [("CBK", "http://www.kostats.com/CBK_Subscription/CBK.HTM"),
   ("CFB", "http://www.kostats.com/CFB_Subscription/CFB.HTM"),
   ("MLB", "http://www.kostats.com/MLB_Subscription/MLB.HTM"),
   ("NBA", "http://www.kostats.com/NBA_Subscription/NBA.HTM"),
   ("NFL", "http://www.kostats.com/NFL_Subscription/NFL.HTM"),
   ("NHL", "http://www.kostats.com/NHL_Subscription/NHL.HTM")]

/-- An HTTP response as the script consumes it: the status code, the href
attributes of the anchor tags of the body in document order (what
`BeautifulSoup.find_all('a', href=...)` iterates over before filtering), and
the raw body bytes used by `download_file`. -/
structure Response where
  status_code : Nat
  hrefs : List String
  content : String
deriving DecidableEq, Repr

/-- The external environment: the network as seen through `self.session`, the
outcome of the `login()` procedure, and the wall-clock reading
`datetime.now().isoformat()`. -/
structure Env where
  get : String → Response
  login_ok : Bool
  now : String

/-- The mutable state threaded through a run: `self.download_history`, the
files written under `BASE_DOWNLOAD_DIR`, and the log of URLs fetched through
`session.get`. -/
structure ScraperState where
  download_history : History
  fs : List (String × String)
  requests : List String
deriving DecidableEq, Repr

/-- Records one `session.get` in the request log. -/
def addRequest (st : ScraperState) (url : String) : ScraperState :=
  { st with requests := st.requests ++ [url] }

/-- Writing a file: `open(path, 'w'/'wb')` followed by a full write replaces
the content at `path`, creating the entry when absent. -/
def fsWrite : List (String × String) → String → String → List (String × String)
  | [], p, c => [(p, c)]
  | e :: rest, p, c => if e.1 = p then (p, c) :: rest else e :: fsWrite rest p c

/-- The content currently stored at a path, when the file exists. -/
def fileContent (fs : List (String × String)) (p : String) : Option String :=
  alookup fs p

/-- Models `KOStatsScraper.download_file`: skip when the (category, name)
pair is already in the history; otherwise fetch the URL, and on status 200
write the body to `downloads/<sport>/<name>` and record the download. -/
def download_file (env : Env) (st : ScraperState) (sport_code file_name file_url : String) :
    Bool × ScraperState :=
  if historyContains st.download_history sport_code file_name then (false, st)
  else
    let st1 := addRequest st file_url
    let response := env.get file_url
    if response.status_code ≠ 200 then (false, st1)
    else
      let file_path := BASE_DOWNLOAD_DIR ++ "/" ++ sport_code ++ "/" ++ file_name
      let record : DownloadRecord := { downloaded_at := env.now, url := file_url }
      (true,
       { download_history := histInsert st.download_history sport_code file_name record,
         fs := fsWrite st1.fs file_path response.content,
         requests := st1.requests })

/-- Models `KOStatsScraper.get_file_links`: unknown sport code or non-200
listing page yields `[]`; otherwise each href ending in `.TXT` (any case) is
resolved against the page URL and named by its basename, in document order. -/
def get_file_links (env : Env) (st : ScraperState) (sport_code : String) :
    List (String × String) × ScraperState :=
  match alookup SPORT_PAGES sport_code with
  | none => ([], st)
  | some sport_url =>
    let st1 := addRequest st sport_url
    let response := env.get sport_url
    if response.status_code ≠ 200 then ([], st1)
    else
      ((response.hrefs.filter txtHref).map (fun href =>
          let file_url := urljoin sport_url href
          (basename file_url, file_url)),
       st1)

/-- The `for file_name, file_url in file_links` loop of `process_sport`. -/
def processFiles (env : Env) (sport_code : String) :
    List (String × String) → Nat → ScraperState → Nat × ScraperState
  | [], count, st => (count, st)
  | (file_name, file_url) :: rest, count, st =>
    let r := download_file env st sport_code file_name file_url
    processFiles env sport_code rest (if r.1 then count + 1 else count) r.2

/-- Models `KOStatsScraper.process_sport`: list the category, then fold the
download over the listed items, counting successful new downloads. -/
def process_sport (env : Env) (st : ScraperState) (sport_code : String) :
    Nat × ScraperState :=
  let r := get_file_links env st sport_code
  processFiles env sport_code r.1 0 r.2

/-- Outcome of `KOStatsScraper.run`: whether it aborted at login, the total
count, the final state, and the History handed to
`_save_download_history` (none when the save was never reached). -/
structure RunResult where
  login_failed : Bool
  total_downloaded : Nat
  state : ScraperState
  persisted : Option History
deriving DecidableEq, Repr

/-- Models `KOStatsScraper.run`: abort on login failure, else process every
sport in `SPORT_PAGES` order and persist the history at the end. -/
def run (env : Env) (st : ScraperState) : RunResult :=
  if env.login_ok then
    let r := SPORT_PAGES.foldl (fun acc p =>
      let pr := process_sport env acc.2 p.1
      (acc.1 + pr.1, pr.2)) (0, st)
    { login_failed := false, total_downloaded := r.1, state := r.2,
      persisted := some r.2.download_history }
  else
    { login_failed := true, total_downloaded := 0, state := st, persisted := none }

/-- Models `KOStatsScraper._load_download_history`, with the JSON codec
(`json.load`) abstracted as `decode` and the file content as `file` (`none`
when `os.path.exists` is false): absent file gives an empty history; a
decode failure (`json.JSONDecodeError`) is caught, logged and gives an empty
history. -/
def load_download_history (decode : String → Option History) (file : Option String) :
    History :=
  match file with
  | none => []
  | some text =>
    match decode text with
    | some h => h
    | none => []

/-- A primitive filesystem step, at the granularity at which a crash can
interleave. -/
inductive FSOp where
  | truncate (path : String)
  | append (path : String) (data : String)
deriving DecidableEq, Repr

/-- Models `KOStatsScraper._save_download_history` as the file operations it
performs: `open(HISTORY_FILE, 'w')` truncates the file in place, then
`json.dump` writes the serialization (given here as the already-serialized
string).  There is no temporary file and no rename. -/
def save_download_history_ops (serialized : String) : List FSOp :=
  [FSOp.truncate HISTORY_FILE, FSOp.append HISTORY_FILE serialized]

/-- Effect of one primitive step on the filesystem. -/
def applyOp (fs : List (String × String)) : FSOp → List (String × String)
  | FSOp.truncate p => fsWrite fs p ""
  | FSOp.append p d => fsWrite fs p (((fileContent fs p).getD "") ++ d)

/-- Effect of a sequence of steps; a crash after `k` steps leaves
`applyOps fs (ops.take k)`. -/
def applyOps (fs : List (String × String)) (ops : List FSOp) : List (String × String) :=
  ops.foldl applyOp fs

/-- Specification-side definition of the delta, following the spec's words:
the items of the listing whose names are in B but not in A, first occurrence
per name only, in the order of B, paired with the URL of that first
occurrence. -/
def deltaItems : List (String × String) → List String → List (String × String)
  | [], _ => []
  | (n, u) :: rest, A =>
    if n ∈ A then deltaItems rest A
    else (n, u) :: deltaItems rest (A ++ [n])

/-! Shared lemmas about the association-list operations. -/

theorem alookup_isSome_iff {α : Type} (l : List (String × α)) (k : String) :
    (alookup l k).isSome = true ↔ k ∈ l.map Prod.fst := by
  induction l with
  | nil => simp [alookup]
  | cons p rest ih =>
    by_cases h : p.1 = k
    · simp [alookup, h]
    · simp [alookup, h, ih, Ne.symm h]

theorem historyContains_iff (h : History) (s n : String) :
    historyContains h s n = true ↔ n ∈ recordedNames h s := by
  unfold historyContains recordedNames
  cases hs : alookup h s with
  | none => simp
  | some sh => simpa using alookup_isSome_iff sh n

theorem alookup_histInsert_self (h : History) (s n : String) (r : DownloadRecord) :
    alookup (histInsert h s n r) s = some (shInsert ((alookup h s).getD []) n r) := by
  induction h with
  | nil => simp [histInsert, alookup, shInsert]
  | cons p rest ih =>
    obtain ⟨k, sh⟩ := p
    by_cases hk : k = s
    · subst hk; simp [histInsert, alookup]
    · simp [histInsert, alookup, hk, ih]

theorem alookup_histInsert_ne (h : History) (s n k : String) (r : DownloadRecord)
    (hk : k ≠ s) :
    alookup (histInsert h s n r) k = alookup h k := by
  induction h with
  | nil => simp [histInsert, alookup, Ne.symm hk]
  | cons p rest ih =>
    obtain ⟨k', sh⟩ := p
    by_cases hk' : k' = s
    · subst hk'; simp [histInsert, alookup, Ne.symm hk]
    · by_cases hkk : k' = k <;> simp [histInsert, alookup, hk', hkk, hk, ih]

theorem map_fst_shInsert_of_not_mem (sh : SportHistory) (n : String) (r : DownloadRecord)
    (hn : n ∉ sh.map Prod.fst) :
    (shInsert sh n r).map Prod.fst = sh.map Prod.fst ++ [n] := by
  induction sh with
  | nil => simp [shInsert]
  | cons p rest ih =>
    obtain ⟨k, v⟩ := p
    simp only [List.map_cons, List.mem_cons] at hn
    push_neg at hn
    simp [shInsert, Ne.symm hn.1, ih hn.2]

theorem recordedNames_histInsert (h : History) (s n : String) (r : DownloadRecord)
    (hn : n ∉ recordedNames h s) :
    recordedNames (histInsert h s n r) s = recordedNames h s ++ [n] := by
  unfold recordedNames at *
  rw [alookup_histInsert_self]
  simp only [Option.getD_some]
  exact map_fst_shInsert_of_not_mem _ n r hn

/-! Shared lemmas: the three branches of `download_file`. -/

theorem download_file_skip (env : Env) (st : ScraperState) (s n u : String)
    (h : historyContains st.download_history s n = true) :
    download_file env st s n u = (false, st) := by
  simp [download_file, h]

theorem download_file_fail (env : Env) (st : ScraperState) (s n u : String)
    (h1 : historyContains st.download_history s n = false)
    (h2 : (env.get u).status_code ≠ 200) :
    download_file env st s n u = (false, addRequest st u) := by
  simp [download_file, h1, h2]

theorem download_file_ok (env : Env) (st : ScraperState) (s n u : String)
    (h1 : historyContains st.download_history s n = false)
    (h2 : (env.get u).status_code = 200) :
    download_file env st s n u =
      (true,
       { download_history :=
           histInsert st.download_history s n { downloaded_at := env.now, url := u },
         fs := fsWrite st.fs (BASE_DOWNLOAD_DIR ++ "/" ++ s ++ "/" ++ n) (env.get u).content,
         requests := st.requests ++ [u] }) := by
  simp [download_file, h1, h2, addRequest]

theorem fileContent_fsWrite_self (fs : List (String × String)) (p c : String) :
    fileContent (fsWrite fs p c) p = some c := by
  induction fs with
  | nil => simp [fsWrite, fileContent, alookup]
  | cons e rest ih =>
    by_cases h : e.1 = p
    · simp [fsWrite, fileContent, alookup, h]
    · simpa [fsWrite, fileContent, alookup, h] using ih

/-- C3: a (category, name) pair already present in the History makes
`download_file` return `false` with the state unchanged: no fetch is issued
(the request log is untouched), no file is written, and the History is not
mutated, whatever the URL or the remote content. -/
theorem never_redownload (env : Env) (st : ScraperState) (s n u : String)
    (h : historyContains st.download_history s n = true) :
    download_file env st s n u = (false, st) := by
  simp [download_file, h]

def envAll404 : Env :=
  { get := fun _ => { status_code := 404, hrefs := [], content := "" },
    login_ok := true, now := "2026-01-01T00:00:00" }

def stWithCBK : ScraperState :=
  { download_history :=
      [("CBK", [("A.TXT", { downloaded_at := "t0", url := "u0" })])],
    fs := [], requests := [] }

theorem never_redownload_witness :
    download_file envAll404 stWithCBK "CBK" "A.TXT" "http://x/A.TXT" = (false, stWithCBK) :=
  never_redownload envAll404 stWithCBK "CBK" "A.TXT" "http://x/A.TXT" (by decide)

/-- C5: when the pair is absent from the History and the fetch answers with a
status other than 200, `download_file` returns `false` having only logged the
request: the filesystem and the History are unchanged, the name is still
absent from the History afterwards, and an immediately subsequent attempt
fetches the URL again. -/
theorem download_failure_atomic (env : Env) (st : ScraperState) (s n u : String)
    (h1 : historyContains st.download_history s n = false)
    (h2 : (env.get u).status_code ≠ 200) :
    download_file env st s n u = (false, addRequest st u) ∧
    (addRequest st u).download_history = st.download_history ∧
    (addRequest st u).fs = st.fs ∧
    historyContains (download_file env st s n u).2.download_history s n = false ∧
    (download_file env (download_file env st s n u).2 s n u).2.requests =
      st.requests ++ [u, u] := by
  have hd := download_file_fail env st s n u h1 h2
  refine ⟨hd, rfl, rfl, ?_, ?_⟩
  · rw [hd]; exact h1
  · rw [hd]
    have hd2 := download_file_fail env (addRequest st u) s n u h1 h2
    rw [hd2]
    simp [addRequest]

theorem download_failure_atomic_witness :
    download_file envAll404 stWithCBK "CBK" "B.TXT" "http://x/B.TXT" =
        (false, addRequest stWithCBK "http://x/B.TXT") ∧
      (addRequest stWithCBK "http://x/B.TXT").download_history =
        stWithCBK.download_history ∧
      (addRequest stWithCBK "http://x/B.TXT").fs = stWithCBK.fs ∧
      historyContains
        (download_file envAll404 stWithCBK "CBK" "B.TXT"
          "http://x/B.TXT").2.download_history "CBK" "B.TXT" = false ∧
      (download_file envAll404
        (download_file envAll404 stWithCBK "CBK" "B.TXT" "http://x/B.TXT").2
        "CBK" "B.TXT" "http://x/B.TXT").2.requests =
        stWithCBK.requests ++ ["http://x/B.TXT", "http://x/B.TXT"] :=
  download_failure_atomic envAll404 stWithCBK "CBK" "B.TXT" "http://x/B.TXT"
    (by decide) (by decide)

/-- C6: loading the persisted History yields the empty History when the store
file is absent, and when the file exists but the JSON codec rejects its
content the decode failure is absorbed and the empty History is returned; the
function is total, so nothing is raised to the caller. -/
theorem load_history_recovery (decode : String → Option History) (text : String)
    (h : decode text = none) :
    load_download_history decode none = [] ∧
    load_download_history decode (some text) = [] := by
  refine ⟨rfl, ?_⟩
  simp [load_download_history, h]

theorem load_history_recovery_witness :
    load_download_history (fun _ => none) none = [] ∧
    load_download_history (fun _ => none) (some "corrupt") = [] :=
  load_history_recovery (fun _ => none) "corrupt" rfl

/-- C7: `get_file_links` returns the empty list both for a category code that
is not in `SPORT_PAGES` and for a configured code whose listing page answers
with a status other than 200; the function is total, so it never raises. -/
theorem get_file_links_empty_on_error (env : Env) (st : ScraperState) (code : String)
    (h : alookup SPORT_PAGES code = none ∨
      ∃ u, alookup SPORT_PAGES code = some u ∧ (env.get u).status_code ≠ 200) :
    (get_file_links env st code).1 = [] := by
  rcases h with h | ⟨u, hu, hs⟩
  · simp [get_file_links, h]
  · simp [get_file_links, hu, hs]

def stEmpty : ScraperState := { download_history := [], fs := [], requests := [] }

theorem get_file_links_empty_on_error_witness :
    (get_file_links envAll404 stEmpty "XYZ").1 = [] ∧
    (get_file_links envAll404 stEmpty "CBK").1 = [] :=
  ⟨get_file_links_empty_on_error envAll404 stEmpty "XYZ" (Or.inl (by decide)),
   get_file_links_empty_on_error envAll404 stEmpty "CBK"
     (Or.inr ⟨"http://www.kostats.com/CBK_Subscription/CBK.HTM", by decide, by decide⟩)⟩

/-- C8: when login fails, `run` returns immediately: zero downloads, the
state (History, filesystem, request log) exactly as it started, and the save
of the History never reached — no category is listed or processed. -/
theorem auth_failure_aborts (env : Env) (st : ScraperState)
    (h : env.login_ok = false) :
    run env st =
      { login_failed := true, total_downloaded := 0, state := st, persisted := none } := by
  simp [run, h]

def envLoginFail : Env :=
  { get := fun _ => { status_code := 200, hrefs := ["A.TXT"], content := "data" },
    login_ok := false, now := "2026-01-01T00:00:00" }

theorem auth_failure_aborts_witness :
    run envLoginFail stWithCBK =
      { login_failed := true, total_downloaded := 0, state := stWithCBK,
        persisted := none } :=
  auth_failure_aborts envLoginFail stWithCBK rfl

/-- C2, counterexample: `_save_download_history` opens the history file with
mode `w`, which truncates it in place before `json.dump` writes the new
serialization.  A crash after the truncation (one completed step of the
save) leaves the history file empty, not holding the previously persisted
content — the prior file is not intact at that crash point. -/
theorem save_not_atomic_cex :
    fileContent
      (applyOps [(HISTORY_FILE, "OLD")] ((save_download_history_ops "NEW").take 1))
      HISTORY_FILE ≠ some "OLD" := by
  decide

/-- C2, amended: persistence is a direct in-place rewrite, not
write-to-temp-then-rename.  An uninterrupted save leaves the history file
holding exactly the new serialization (overwriting prior content), but at the
crash point after truncation the file content is the empty string, so the
previously persisted content is lost rather than left intact. -/
theorem save_overwrites_inplace (fs : List (String × String)) (s : String) :
    fileContent (applyOps fs (save_download_history_ops s)) HISTORY_FILE = some s ∧
    fileContent (applyOps fs ((save_download_history_ops s).take 1)) HISTORY_FILE =
      some "" := by
  constructor
  · show fileContent
      (applyOp (applyOp fs (FSOp.truncate HISTORY_FILE)) (FSOp.append HISTORY_FILE s))
      HISTORY_FILE = some s
    simp [applyOp, fileContent_fsWrite_self,
      show fileContent (fsWrite fs HISTORY_FILE "") HISTORY_FILE = some "" from
        fileContent_fsWrite_self fs HISTORY_FILE ""]
  · show fileContent (applyOp fs (FSOp.truncate HISTORY_FILE)) HISTORY_FILE = some ""
    simp [applyOp, fileContent_fsWrite_self]

/-! Characterization of the specification-side delta. -/

theorem mem_map_fst_deltaItems (l : List (String × String)) (A : List String) (n : String) :
    n ∈ (deltaItems l A).map Prod.fst ↔ n ∈ l.map Prod.fst ∧ n ∉ A := by
  induction l generalizing A with
  | nil => simp [deltaItems]
  | cons p rest ih =>
    obtain ⟨m, u⟩ := p
    by_cases hm : m ∈ A
    · rw [deltaItems, if_pos hm, ih]
      simp only [List.map_cons, List.mem_cons]
      constructor
      · rintro ⟨h1, h2⟩; exact ⟨Or.inr h1, h2⟩
      · rintro ⟨h1 | h1, h2⟩
        · exact absurd (h1 ▸ hm) h2
        · exact ⟨h1, h2⟩
    · rw [deltaItems, if_neg hm]
      simp only [List.map_cons, List.mem_cons, ih]
      constructor
      · rintro (h1 | ⟨h1, h2⟩)
        · exact ⟨Or.inl h1, h1 ▸ hm⟩
        · refine ⟨Or.inr h1, fun hA => h2 ?_⟩
          simp [hA]
      · rintro ⟨h1 | h1, h2⟩
        · exact Or.inl h1
        · by_cases hnm : n = m
          · exact Or.inl hnm
          · exact Or.inr ⟨h1, by simp [h2, hnm]⟩

theorem nodup_map_fst_deltaItems (l : List (String × String)) (A : List String) :
    ((deltaItems l A).map Prod.fst).Nodup := by
  induction l generalizing A with
  | nil => simp [deltaItems]
  | cons p rest ih =>
    obtain ⟨m, u⟩ := p
    by_cases hm : m ∈ A
    · rw [deltaItems, if_pos hm]; exact ih A
    · rw [deltaItems, if_neg hm]
      simp only [List.map_cons, List.nodup_cons]
      refine ⟨fun hmem => ?_, ih (A ++ [m])⟩
      rw [mem_map_fst_deltaItems] at hmem
      exact hmem.2 (by simp)

theorem deltaItems_eq_nil_of_subset (l : List (String × String)) (A : List String)
    (h : ∀ n ∈ l.map Prod.fst, n ∈ A) :
    deltaItems l A = [] := by
  induction l with
  | nil => rfl
  | cons p rest ih =>
    obtain ⟨m, u⟩ := p
    rw [deltaItems, if_pos (h m (by simp))]
    exact ih fun n hn => h n (by simp [hn])

/-! The reconciliation loop implements the delta. -/

theorem processFiles_delta (env : Env) (s : String) (l : List (String × String)) :
    ∀ (st : ScraperState) (count : Nat),
    (∀ p ∈ l, (env.get p.2).status_code = 200) →
    (processFiles env s l count st).1 =
        count + (deltaItems l (recordedNames st.download_history s)).length ∧
    recordedNames (processFiles env s l count st).2.download_history s =
        recordedNames st.download_history s ++
          (deltaItems l (recordedNames st.download_history s)).map Prod.fst ∧
    (processFiles env s l count st).2.requests =
        st.requests ++ (deltaItems l (recordedNames st.download_history s)).map Prod.snd := by
  induction l with
  | nil => intro st count _; simp [processFiles, deltaItems]
  | cons p rest ih =>
    intro st count h
    obtain ⟨n, u⟩ := p
    by_cases hn : n ∈ recordedNames st.download_history s
    · have hc : historyContains st.download_history s n = true :=
        (historyContains_iff _ _ _).mpr hn
      have hd := download_file_skip env st s n u hc
      rw [show processFiles env s ((n, u) :: rest) count st =
            processFiles env s rest
              (if (download_file env st s n u).1 then count + 1 else count)
              (download_file env st s n u).2 from rfl, hd]
      simp only [deltaItems, if_pos hn]
      exact ih st count fun q hq => h q (List.mem_cons_of_mem _ hq)
    · have hc : historyContains st.download_history s n = false := by
        cases hcc : historyContains st.download_history s n
        · rfl
        · exact absurd ((historyContains_iff _ _ _).mp hcc) hn
      have h200 : (env.get u).status_code = 200 := h (n, u) (List.mem_cons_self _ _)
      have hd := download_file_ok env st s n u hc h200
      rw [show processFiles env s ((n, u) :: rest) count st =
            processFiles env s rest
              (if (download_file env st s n u).1 then count + 1 else count)
              (download_file env st s n u).2 from rfl, hd]
      simp only [if_pos]
      set st2 : ScraperState :=
        { download_history :=
            histInsert st.download_history s n { downloaded_at := env.now, url := u },
          fs := fsWrite st.fs (BASE_DOWNLOAD_DIR ++ "/" ++ s ++ "/" ++ n) (env.get u).content,
          requests := st.requests ++ [u] } with hst2
      have hA2 : recordedNames st2.download_history s =
          recordedNames st.download_history s ++ [n] := by
        rw [hst2]
        exact recordedNames_histInsert st.download_history s n _ hn
      obtain ⟨ih1, ih2, ih3⟩ := ih st2 (count + 1) fun q hq => h q (List.mem_cons_of_mem _ hq)
      rw [hA2] at ih1 ih2 ih3
      simp only [deltaItems, if_neg hn]
      refine ⟨?_, ?_, ?_⟩
      · rw [ih1]; simp [Nat.add_assoc, Nat.add_comm 1]
      · rw [ih2]; simp
      · rw [ih3]; simp [hst2]

/-- C1: for a category whose catalog listing is the sequence of (name, URL)
pairs `B` and whose recorded-name set is `A`, processing the category fetches
exactly the URLs of the delta `deltaItems B A` — the first occurrence of each
name of `B` that is not in `A`, in the order of `B` — appends exactly those
names to the category's history, and returns their number; the delta's names
are precisely the names of `B` not in `A`, without duplicates even when `B`
repeats a name.  (The hypothesis says every listed file URL responds with
status 200, i.e. every attempted download succeeds.) -/
theorem process_sport_delta_correct (env : Env) (st : ScraperState) (sport_code : String)
    (hok : ∀ p ∈ (get_file_links env st sport_code).1, (env.get p.2).status_code = 200) :
    (process_sport env st sport_code).1 =
        (deltaItems (get_file_links env st sport_code).1
          (recordedNames st.download_history sport_code)).length ∧
    recordedNames (process_sport env st sport_code).2.download_history sport_code =
        recordedNames st.download_history sport_code ++
          (deltaItems (get_file_links env st sport_code).1
            (recordedNames st.download_history sport_code)).map Prod.fst ∧
    (process_sport env st sport_code).2.requests =
        (get_file_links env st sport_code).2.requests ++
          (deltaItems (get_file_links env st sport_code).1
            (recordedNames st.download_history sport_code)).map Prod.snd ∧
    (∀ n, n ∈ (deltaItems (get_file_links env st sport_code).1
            (recordedNames st.download_history sport_code)).map Prod.fst ↔
        n ∈ (get_file_links env st sport_code).1.map Prod.fst ∧
          n ∉ recordedNames st.download_history sport_code) ∧
    ((deltaItems (get_file_links env st sport_code).1
        (recordedNames st.download_history sport_code)).map Prod.fst).Nodup := by
  have hgh : (get_file_links env st sport_code).2.download_history = st.download_history := by
    unfold get_file_links
    cases alookup SPORT_PAGES sport_code with
    | none => rfl
    | some u =>
      by_cases h2 : (env.get u).status_code = 200 <;> simp [h2, addRequest]
  obtain ⟨h1, h2, h3⟩ :=
    processFiles_delta env sport_code (get_file_links env st sport_code).1
      (get_file_links env st sport_code).2 0 hok
  rw [hgh] at h1 h2 h3
  exact ⟨by simpa using h1, h2, h3,
    fun n => mem_map_fst_deltaItems _ _ n, nodup_map_fst_deltaItems _ _⟩

def envHappy : Env :=
  { get := fun u =>
      if u = "http://www.kostats.com/CBK_Subscription/CBK.HTM" then
        { status_code := 200, hrefs := ["A.TXT", "B.TXT"], content := "" }
      else { status_code := 200, hrefs := [], content := "body" },
    login_ok := true, now := "2026-01-01T00:00:00" }

theorem process_sport_delta_correct_witness :
    (process_sport envHappy stWithCBK "CBK").1 =
        (deltaItems (get_file_links envHappy stWithCBK "CBK").1
          (recordedNames stWithCBK.download_history "CBK")).length ∧
    recordedNames (process_sport envHappy stWithCBK "CBK").2.download_history "CBK" =
        recordedNames stWithCBK.download_history "CBK" ++
          (deltaItems (get_file_links envHappy stWithCBK "CBK").1
            (recordedNames stWithCBK.download_history "CBK")).map Prod.fst ∧
    (process_sport envHappy stWithCBK "CBK").2.requests =
        (get_file_links envHappy stWithCBK "CBK").2.requests ++
          (deltaItems (get_file_links envHappy stWithCBK "CBK").1
            (recordedNames stWithCBK.download_history "CBK")).map Prod.snd ∧
    (∀ n, n ∈ (deltaItems (get_file_links envHappy stWithCBK "CBK").1
            (recordedNames stWithCBK.download_history "CBK")).map Prod.fst ↔
        n ∈ (get_file_links envHappy stWithCBK "CBK").1.map Prod.fst ∧
          n ∉ recordedNames stWithCBK.download_history "CBK") ∧
    ((deltaItems (get_file_links envHappy stWithCBK "CBK").1
        (recordedNames stWithCBK.download_history "CBK")).map Prod.fst).Nodup :=
  process_sport_delta_correct envHappy stWithCBK "CBK" (by decide)

/-! Idempotence of a second run over the same catalog. -/

theorem get_file_links_fst_indep (env : Env) (st st' : ScraperState) (c : String) :
    (get_file_links env st c).1 = (get_file_links env st' c).1 := by
  unfold get_file_links
  cases alookup SPORT_PAGES c with
  | none => rfl
  | some u => by_cases h2 : (env.get u).status_code = 200 <;> simp [h2]

/-- C4: with a fixed catalog in which every listed item downloads
successfully, running the reconciler for a category a second time immediately
after a first run yields zero new downloads: every name fetched in the first
run is in the History the second run sees. -/
theorem reconcile_idempotent (env : Env) (st : ScraperState) (sport_code : String)
    (hok : ∀ p ∈ (get_file_links env st sport_code).1, (env.get p.2).status_code = 200) :
    (process_sport env (process_sport env st sport_code).2 sport_code).1 = 0 := by
  set st1 := (process_sport env st sport_code).2 with hst1
  have hlinks : (get_file_links env st1 sport_code).1 =
      (get_file_links env st sport_code).1 :=
    get_file_links_fst_indep env st1 st sport_code
  have hok1 : ∀ p ∈ (get_file_links env st1 sport_code).1,
      (env.get p.2).status_code = 200 := by
    rw [hlinks]; exact hok
  obtain ⟨h1, _, _, _, _⟩ := process_sport_delta_correct env st1 sport_code hok1
  obtain ⟨_, h2, _⟩ := processFiles_delta env sport_code
    (get_file_links env st sport_code).1 (get_file_links env st sport_code).2 0 hok
  have hgh : (get_file_links env st sport_code).2.download_history = st.download_history := by
    unfold get_file_links
    cases alookup SPORT_PAGES sport_code with
    | none => rfl
    | some u => by_cases hs : (env.get u).status_code = 200 <;> simp [hs, addRequest]
  rw [hgh] at h2
  have hsub : ∀ n ∈ (get_file_links env st1 sport_code).1.map Prod.fst,
      n ∈ recordedNames st1.download_history sport_code := by
    intro n hn
    rw [hlinks] at hn
    rw [hst1]
    show n ∈ recordedNames (process_sport env st sport_code).2.download_history sport_code
    unfold process_sport
    rw [h2]
    by_cases hA : n ∈ recordedNames st.download_history sport_code
    · exact List.mem_append_left _ hA
    · exact List.mem_append_right _
        ((mem_map_fst_deltaItems _ _ n).mpr ⟨hn, hA⟩)
  rw [h1, deltaItems_eq_nil_of_subset _ _ hsub]
  rfl

theorem reconcile_idempotent_witness :
    (process_sport envHappy (process_sport envHappy stWithCBK "CBK").2 "CBK").1 = 0 :=
  reconcile_idempotent envHappy stWithCBK "CBK" (by decide)

/-! Frame property: a run only ever touches history keys that are configured
sport codes. -/

theorem download_file_hist_frame (env : Env) (st : ScraperState) (s n u k : String)
    (hk : k ≠ s) :
    alookup (download_file env st s n u).2.download_history k =
      alookup st.download_history k := by
  cases hc : historyContains st.download_history s n with
  | true => rw [download_file_skip env st s n u hc]
  | false =>
    by_cases h2 : (env.get u).status_code = 200
    · rw [download_file_ok env st s n u hc h2]
      exact alookup_histInsert_ne _ s n k _ hk
    · rw [download_file_fail env st s n u hc h2]; rfl

theorem processFiles_hist_frame (env : Env) (s : String) (l : List (String × String)) :
    ∀ (st : ScraperState) (count : Nat) (k : String), k ≠ s →
    alookup (processFiles env s l count st).2.download_history k =
      alookup st.download_history k := by
  induction l with
  | nil => intro st count k _; rfl
  | cons p rest ih =>
    intro st count k hk
    obtain ⟨n, u⟩ := p
    rw [show processFiles env s ((n, u) :: rest) count st =
          processFiles env s rest
            (if (download_file env st s n u).1 then count + 1 else count)
            (download_file env st s n u).2 from rfl]
    rw [ih _ _ k hk]
    exact download_file_hist_frame env st s n u k hk

theorem get_file_links_snd_hist (env : Env) (st : ScraperState) (c : String) :
    (get_file_links env st c).2.download_history = st.download_history := by
  unfold get_file_links
  cases alookup SPORT_PAGES c with
  | none => rfl
  | some u => by_cases h2 : (env.get u).status_code = 200 <;> simp [h2, addRequest]

theorem process_sport_hist_frame (env : Env) (st : ScraperState) (c k : String)
    (hk : k ≠ c) :
    alookup (process_sport env st c).2.download_history k =
      alookup st.download_history k := by
  unfold process_sport
  rw [processFiles_hist_frame env c _ _ _ k hk, get_file_links_snd_hist]

theorem foldl_process_hist_frame (env : Env) (ps : List (String × String)) :
    ∀ (acc : Nat × ScraperState) (k : String), (∀ p ∈ ps, p.1 ≠ k) →
    alookup (ps.foldl (fun acc p =>
        let pr := process_sport env acc.2 p.1
        (acc.1 + pr.1, pr.2)) acc).2.download_history k =
      alookup acc.2.download_history k := by
  induction ps with
  | nil => intro acc k _; rfl
  | cons p rest ih =>
    intro acc k h
    rw [List.foldl_cons]
    rw [ih _ k fun q hq => h q (List.mem_cons_of_mem _ hq)]
    exact process_sport_hist_frame env acc.2 p.1 k
      (fun he => h p (List.mem_cons_self _ _) he.symm)

/-- C9: a full run leaves the history mapping of every category key that is
not one of the six configured sport codes unchanged, and when the run reaches
the final persist, the History it persists agrees with the initial one on
that key — records are only ever added under configured codes. -/
theorem run_frame_unconfigured (env : Env) (st : ScraperState) (k : String)
    (hk : k ∉ SPORT_PAGES.map Prod.fst) :
    alookup (run env st).state.download_history k = alookup st.download_history k ∧
    (run env st).persisted.map (fun h => alookup h k) =
      (run env st).persisted.map (fun _ => alookup st.download_history k) := by
  unfold run
  by_cases hl : env.login_ok
  · simp only [hl, if_true]
    have hfr := foldl_process_hist_frame env SPORT_PAGES (0, st) k
      (fun p hp he => hk (he ▸ List.mem_map_of_mem Prod.fst hp))
    exact ⟨hfr, by simp [hfr]⟩
  · simp [hl]

def stUnconfigured : ScraperState :=
  { download_history :=
      [("XXX", [("OLD.TXT", { downloaded_at := "t0", url := "u0" })])],
    fs := [], requests := [] }

theorem run_frame_unconfigured_witness :
    alookup (run envAll404 stUnconfigured).state.download_history "XXX" =
        alookup stUnconfigured.download_history "XXX" ∧
    (run envAll404 stUnconfigured).persisted.map (fun h => alookup h "XXX") =
      (run envAll404 stUnconfigured).persisted.map
        (fun _ => alookup stUnconfigured.download_history "XXX") :=
  run_frame_unconfigured envAll404 stUnconfigured "XXX" (by decide)

/-! Basename collision at the catalog interface. -/

def envCollide : Env :=
  { get := fun u =>
      if u = "http://www.kostats.com/CBK_Subscription/CBK.HTM" then
        { status_code := 200, hrefs := ["DIR1/GAME.TXT", "DIR2/GAME.TXT"], content := "" }
      else if u = "http://www.kostats.com/CBK_Subscription/DIR1/GAME.TXT" then
        { status_code := 200, hrefs := [], content := "firstbody" }
      else
        { status_code := 200, hrefs := [], content := "secondbody" },
    login_ok := true, now := "2026-01-01T00:00:00" }

/-- C10: every item produced by `get_file_links` is named by the basename of
its resolved URL, so two listed links with distinct URLs but the same
basename yield items with the same name.  Concretely, for a page listing
`DIR1/GAME.TXT` and `DIR2/GAME.TXT`, the catalog holds two items named
`GAME.TXT` with distinct URLs; processing it from an empty history downloads
and records only the first occurrence (one history entry carrying the first
URL, one file on disk with the first URL's body, a request log showing the
second URL was never fetched) and reports one new download. -/
theorem basename_collision (env : Env) (st : ScraperState) (c : String)
    (p : String × String) (hp : p ∈ (get_file_links env st c).1) :
    p.1 = basename p.2 ∧
    (get_file_links envCollide stEmpty "CBK").1 =
      [("GAME.TXT", "http://www.kostats.com/CBK_Subscription/DIR1/GAME.TXT"),
       ("GAME.TXT", "http://www.kostats.com/CBK_Subscription/DIR2/GAME.TXT")] ∧
    ("http://www.kostats.com/CBK_Subscription/DIR1/GAME.TXT" : String) ≠
      "http://www.kostats.com/CBK_Subscription/DIR2/GAME.TXT" ∧
    process_sport envCollide stEmpty "CBK" =
      (1,
       { download_history :=
           [("CBK",
             [("GAME.TXT",
               { downloaded_at := "2026-01-01T00:00:00",
                 url := "http://www.kostats.com/CBK_Subscription/DIR1/GAME.TXT" })])],
         fs := [("downloads/CBK/GAME.TXT", "firstbody")],
         requests := ["http://www.kostats.com/CBK_Subscription/CBK.HTM",
                      "http://www.kostats.com/CBK_Subscription/DIR1/GAME.TXT"] }) := by
  refine ⟨?_, by decide, by decide, by decide⟩
  revert hp
  unfold get_file_links
  cases alookup SPORT_PAGES c with
  | none => intro hp; simp at hp
  | some url =>
    by_cases h2 : (env.get url).status_code = 200
    · intro hp
      have hp' : p ∈ ((env.get url).hrefs.filter txtHref).map (fun href =>
          (basename (urljoin url href), urljoin url href)) := by simpa [h2] using hp
      obtain ⟨href, _, hval⟩ := List.mem_map.mp hp'
      rw [← hval]
    · simp [h2]

theorem basename_collision_witness :
    (("GAME.TXT", "http://www.kostats.com/CBK_Subscription/DIR1/GAME.TXT") :
        String × String).1 =
      basename (("GAME.TXT",
        "http://www.kostats.com/CBK_Subscription/DIR1/GAME.TXT") :
          String × String).2 ∧
    (get_file_links envCollide stEmpty "CBK").1 =
      [("GAME.TXT", "http://www.kostats.com/CBK_Subscription/DIR1/GAME.TXT"),
       ("GAME.TXT", "http://www.kostats.com/CBK_Subscription/DIR2/GAME.TXT")] ∧
    ("http://www.kostats.com/CBK_Subscription/DIR1/GAME.TXT" : String) ≠
      "http://www.kostats.com/CBK_Subscription/DIR2/GAME.TXT" ∧
    process_sport envCollide stEmpty "CBK" =
      (1,
       { download_history :=
           [("CBK",
             [("GAME.TXT",
               { downloaded_at := "2026-01-01T00:00:00",
                 url := "http://www.kostats.com/CBK_Subscription/DIR1/GAME.TXT" })])],
         fs := [("downloads/CBK/GAME.TXT", "firstbody")],
         requests := ["http://www.kostats.com/CBK_Subscription/CBK.HTM",
                      "http://www.kostats.com/CBK_Subscription/DIR1/GAME.TXT"] }) :=
  basename_collision envCollide stEmpty "CBK"
    ("GAME.TXT", "http://www.kostats.com/CBK_Subscription/DIR1/GAME.TXT") (by decide)

end KOStats
